import Mathlib

/-!
# Verification of the `Amount` fixed-point currency type

Shallow embedding of `src/amount.rs` from the `revolut-customer` crate.

`Amount` is a 64-bit unsigned integer counting hundredths of a unit.  We model
`u64` values as `Nat` together with explicit `% 2 ^ 64` wherever the Rust code
performs native machine arithmetic that can overflow (release builds wrap;
debug builds panic — the wrapping/panicking points are noted at each
definition).  Rust operations that panic in every build configuration
(division or remainder by zero) are modelled by an explicit failure value.

Strings are modelled as `List Char`.

The file is organised as: definitions (embedding of the source), then
supporting lemmas, then one theorem per specification claim.
-/

/-- `u64::max_value()`. -/
def U64MAX : Nat := 2 ^ 64 - 1

/-- The `Amount` struct from `src/amount.rs`: a single `u64` field `value`,
interpreted as a fixed-point number of factor 1/100. -/
@[ext]
structure Amount where
  value : Nat
  deriving DecidableEq, Repr

namespace Amount

/-- `Amount::from_repr`: construct an amount from its internal representation. -/
def from_repr (value : Nat) : Amount := ⟨value⟩

/-- `Amount::get_repr`: extract the internal representation. -/
def get_repr (a : Amount) : Nat := a.value

/-- `Amount::min_value()`: the smallest representable amount (`u64::min_value()`). -/
def min_value : Amount := ⟨0⟩

/-- `Amount::max_value()`: the largest representable amount (`u64::max_value()`). -/
def max_value : Amount := ⟨U64MAX⟩

end Amount

/-!
## Digit characters and decimal rendering

`char::to_digit(10)` and the decimal rendering of `u64` values used by
`format!` in the `Display` implementation.
-/

/-- Rust `char::to_digit(10)`: `some d` exactly for the ASCII digits `'0'..='9'`. -/
def charDigit (c : Char) : Option Nat :=
  if 48 ≤ c.toNat ∧ c.toNat ≤ 57 then some (c.toNat - 48) else none

/-- The ASCII character for a decimal digit (used only for arguments `< 10`). -/
def digitChar : Nat → Char
  | 0 => '0'
  | 1 => '1'
  | 2 => '2'
  | 3 => '3'
  | 4 => '4'
  | 5 => '5'
  | 6 => '6'
  | 7 => '7'
  | 8 => '8'
  | _ => '9'

/-- Decimal rendering loop for `format!("{}", n)`: repeatedly divide by 10,
prepending the digit characters.  `fuel` is a structural-recursion bound;
any `fuel ≥ n` renders `n` completely. -/
def natCharsAux : Nat → Nat → List Char → List Char
  | _, 0, acc => acc
  | 0, _ + 1, acc => acc
  | fuel + 1, n + 1, acc =>
    natCharsAux fuel ((n + 1) / 10) (digitChar ((n + 1) % 10) :: acc)

/-- Rust `format!("{}", n)` for an unsigned integer `n`. -/
def natToString (n : Nat) : List Char :=
  if n = 0 then ['0'] else natCharsAux n n []

/-- Rust `format!("{:02}", n)`: decimal rendering zero-padded to width 2. -/
def natToString2 (n : Nat) : List Char :=
  if n < 10 then '0' :: natToString n else natToString n

/-!
## The numeric value denoted by a digit string

`valC` is the mathematical (unbounded) value of a decimal digit string —
the quantity the claims speak about when they mention "the integer part `u`"
or "the fractional digit string parsing to integer `d`".  It performs the
same left-to-right fold as `u64::from_str` but without any overflow cutoff.
-/

/-- Left fold `acc * 10 + digit` over a character list, unbounded. -/
def valAuxC : Nat → List Char → Nat
  | acc, [] => acc
  | acc, c :: cs => valAuxC (acc * 10 + (c.toNat - 48)) cs

/-- The unbounded numeric value of a decimal digit string. -/
def valC (s : List Char) : Nat := valAuxC 0 s

/-!
## Parsing

`impl FromStr for Amount` (`Amount::from_str`), together with the pieces of
the Rust standard library it relies on: `str::split('.')` and
`u64::from_str`.
-/

/-- Rust `s.split('.')` on a string modelled as a character list: the list of
`'.'`-separated parts (always non-empty; `n` dots yield `n + 1` parts). -/
def splitDot : List Char → List (List Char)
  | [] => [[]]
  | c :: rest =>
    match splitDot rest with
    | [] => []
    | h :: t => if c = '.' then [] :: h :: t else (c :: h) :: t

/-- The accumulator loop of `u64::from_str`: left-to-right over the digit
characters, `acc * 10 + d` with a checked-multiply/checked-add overflow test
(`none` models `Err(PosOverflow)` / `Err(InvalidDigit)`). -/
def parseDigitsAux : Nat → List Char → Option Nat
  | acc, [] => some acc
  | acc, c :: cs =>
    match charDigit c with
    | none => none
    | some d =>
      if acc * 10 + d < 2 ^ 64 then parseDigitsAux (acc * 10 + d) cs else none

/-- Rust `u64::from_str` (`s.parse::<u64>()`): rejects the empty string,
accepts one optional leading `'+'`, then requires a non-empty run of decimal
digits whose value fits in 64 bits. -/
def parseU64 (s : List Char) : Option Nat :=
  match s with
  | [] => none
  | c :: cs =>
    if c = '+' then
      if cs = [] then none else parseDigitsAux 0 cs
    else parseDigitsAux 0 (c :: cs)

/-- Outcome of `Amount::from_str`.  `err s` is `Err(AmountParseError { amount_str: s })`
(every error constructed by the parser carries the original input); `fault`
models a Rust panic (remainder by zero inside the rounding step, reachable
only for fractional parts of 66 or more characters). -/
inductive ParseResult where
  | ok : Amount → ParseResult
  | err : List Char → ParseResult
  | fault : ParseResult
  deriving DecidableEq, Repr

/-- The units block of `Amount::from_str`: an empty units part denotes 0;
otherwise it must parse as `u64` and satisfy `u <= u64::MAX / 100`, giving
`u * 100`; `none` is the early `return Err(AmountParseError { .. })`. -/
def unitsVal (units_str : List Char) : Option Nat :=
  if units_str = [] then some 0
  else
    match parseU64 units_str with
    | none => none
    | some u => if u ≤ U64MAX / 100 then some (u * 100) else none

/-- The trailing-`'0'`-padding of a length-1 decimals part in
`Amount::from_str` (`decimals_str.push('0')`). -/
def padded (decimals_str : List Char) : List Char :=
  if decimals_str.length = 1 then decimals_str ++ ['0'] else decimals_str

/-- The round-half-up step of `Amount::from_str`:
`if rem >= divisor / 2 { d / divisor + 1 } else { d / divisor }`. -/
def roundHalfUp (d divisor : Nat) : Nat :=
  if d % divisor ≥ divisor / 2 then d / divisor + 1 else d / divisor

/-- Outcome of the decimals block of `Amount::from_str`. -/
inductive DecimalsResult where
  | val : Nat → DecimalsResult
  | err : DecimalsResult
  | fault : DecimalsResult
  deriving DecidableEq, Repr

/-- The decimals block of `Amount::from_str`: an empty decimals part is an
error; a length-1 part is padded with `'0'`; the padded part must parse as
`u64`; a 2-character part is used as is, a longer one is rounded half-up
with `divisor = 10_u64.pow(len - 2)`.  `10_u64.pow` is native-wrapping in
release builds, hence the explicit `% 2 ^ 64` on the divisor; when the
wrapped divisor is zero the subsequent Rust `%` panics (`fault`). -/
def decimalsVal (decimals_str : List Char) : DecimalsResult :=
  if decimals_str = [] then .err
  else
    match parseU64 (padded decimals_str) with
    | none => .err
    | some d =>
      if (padded decimals_str).length = 2 then .val d
      else if 10 ^ ((padded decimals_str).length - 2) % 2 ^ 64 = 0 then .fault
      else .val (roundHalfUp d (10 ^ ((padded decimals_str).length - 2) % 2 ^ 64))

/-- `Amount::from_str` from `src/amount.rs`.

Mirrors the source: on a string containing `'.'`, exactly two
`'.'`-separated parts are required; the units part is handled by
`unitsVal`, the decimals part by `decimalsVal`, and the final
`units + decimals` is overflow-checked (`u64::max_value() - decimals >= units`).
Without a `'.'`, the whole string is parsed as a unit count and scaled
by 100 under the `u <= u64::MAX / 100` check. -/
def Amount.fromStr (s : List Char) : ParseResult :=
  if ('.') ∈ s then
    match splitDot s with
    | [units_str, decimals_str] =>
      match unitsVal units_str with
      | none => .err s
      | some units =>
        match decimalsVal decimals_str with
        | .err => .err s
        | .fault => .fault
        | .val decimals =>
          if U64MAX - decimals ≥ units then .ok ⟨units + decimals⟩ else .err s
    | _ => .err s
  else
    match parseU64 s with
    | none => .err s
    | some units =>
      if units ≤ U64MAX / 100 then .ok ⟨units * 100⟩ else .err s

/-- The mathematical rounded two-digit decimals value of a fractional digit
string, with the exact (unwrapped) divisor `10 ^ (len - 2)` — the quantity
the specification calls "rounded decimals". -/
def specDecimals (decimals_str : List Char) : Nat :=
  if (padded decimals_str).length = 2 then valC (padded decimals_str)
  else roundHalfUp (valC (padded decimals_str)) (10 ^ ((padded decimals_str).length - 2))

/-!
## Formatting

`impl fmt::Display for Amount`: `{}` (no precision), `{:.0}`, `{:.1}`,
`{:.p}` for `p ≥ 2`, and the `'0'`-left-padding applied when a minimum width
is requested.
-/

/-- `impl fmt::Display for Amount`, with `precision` modelling
`f.precision()` and `width` modelling `f.width()`. -/
def Amount.format (a : Amount) (precision : Option Nat) (width : Option Nat) : List Char :=
  let units := a.value / 100
  let decimal_repr := a.value % 100
  let result :=
    match precision with
    | none =>
      if decimal_repr = 0 then natToString units
      else if decimal_repr % 10 = 0 then
        natToString units ++ '.' :: natToString (decimal_repr / 10)
      else natToString units ++ '.' :: natToString2 decimal_repr
    | some 0 => natToString (if decimal_repr ≥ 50 then units + 1 else units)
    | some 1 =>
      natToString units ++ '.' ::
        natToString (if decimal_repr % 10 ≥ 5 then decimal_repr / 10 + 1 else decimal_repr / 10)
    | some p => natToString units ++ '.' :: natToString2 decimal_repr ++ List.replicate (p - 2) '0'
  match width with
  | none => result
  | some w =>
    if w < result.length then result else List.replicate (w - result.length) '0' ++ result

/-!
## Arithmetic operators

The `impl_ops_int!` macro (for `u8 u16 u32 u64` scalars, all converted to
`u64` via `u64::from` and here modelled as `Nat` arguments `< 2 ^ 64`) and
the `Add`/`Sub` implementations.  The Rust source uses native machine
arithmetic: `+`, `-`, `*` silently wrap modulo `2 ^ 64` in release builds
(and panic in debug builds) — the `% 2 ^ 64` below models the release
behaviour.  `/` and `%` by zero panic in every build, modelled as `none`.
-/

/-- `impl Add for Amount`: `value + rhs.value` with native (release: wrapping)
semantics. -/
def Amount.add (a b : Amount) : Amount := ⟨(a.value + b.value) % 2 ^ 64⟩

/-- `impl Sub for Amount`: `value - rhs.value` with native (release: wrapping)
semantics. -/
def Amount.sub (a b : Amount) : Amount := ⟨(a.value + (2 ^ 64 - b.value)) % 2 ^ 64⟩

/-- `impl Mul<$t> for Amount`: `value * u64::from(rhs)` with native
(release: wrapping) semantics. -/
def Amount.mul (a : Amount) (rhs : Nat) : Amount := ⟨(a.value * rhs) % 2 ^ 64⟩

/-- `impl Mul<Amount> for $t`: `u64::from(self) * rhs.value` with native
(release: wrapping) semantics. -/
def Amount.mulScalar (lhs : Nat) (a : Amount) : Amount := ⟨(lhs * a.value) % 2 ^ 64⟩

/-- `impl Div<$t> for Amount`: `value / u64::from(rhs)`; Rust division by
zero panics in every build configuration (`none`). -/
def Amount.div (a : Amount) (rhs : Nat) : Option Amount :=
  if rhs = 0 then none else some ⟨a.value / rhs⟩

/-- `impl Rem<$t> for Amount`: `value % (u64::from(rhs) * 100)`.  The scalar
multiplication is native (release: wrapping, hence the `% 2 ^ 64`); when the
wrapped modulus is zero the Rust `%` panics in every build (`none`). -/
def Amount.rem (a : Amount) (rhs : Nat) : Option Amount :=
  if rhs * 100 % 2 ^ 64 = 0 then none else some ⟨a.value % (rhs * 100 % 2 ^ 64)⟩

/-- Strip one leading `'+'` (the sign handling of `u64::from_str`). -/
def dropPlus : List Char → List Char
  | '+' :: t => t
  | p => p

/-- The character shape `u64::from_str` can accept for one `'.'`-separated
part: every character after at most one leading `'+'` is a decimal digit. -/
def partWf (p : List Char) : Prop := ∀ c ∈ dropPlus p, (charDigit c).isSome

instance (p : List Char) : Decidable (partWf p) := by
  unfold partWf
  infer_instance

/-!
## Sanity checks against the Rust documentation tests and the
specification's worked examples
-/

example : natToString 0 = ['0'] := by decide
example : natToString 17564 = ['1', '7', '5', '6', '4'] := by decide
example : natToString 184467440737095516 =
    ['1', '8', '4', '4', '6', '7', '4', '4', '0', '7', '3', '7', '0', '9', '5', '5', '1', '6'] := by
  decide
example : natToString2 5 = ['0', '5'] := by decide
example : natToString2 56 = ['5', '6'] := by decide

example : splitDot ['1', '.', '2'] = [['1'], ['2']] := by decide
example : splitDot ['.'] = [[], []] := by decide
example : splitDot ['1', '.', '2', '.', '3'] = [['1'], ['2'], ['3']] := by decide

example : parseU64 ['1', '7', '5'] = some 175 := by decide
example : parseU64 ['+', '5'] = some 5 := by decide
example : parseU64 ['+'] = none := by decide
example : parseU64 ['-', '5'] = none := by decide
example : parseU64 [] = none := by decide
example : parseU64 ['1', '8', '4', '4', '6', '7', '4', '4', '0', '7', '3', '7', '0', '9', '5',
    '5', '1', '6', '1', '5'] = some 18446744073709551615 := by decide
example : parseU64 ['1', '8', '4', '4', '6', '7', '4', '4', '0', '7', '3', '7', '0', '9', '5',
    '5', '1', '6', '1', '6'] = none := by decide

example : Amount.fromStr ['1', '7', '5', '.', '6', '4'] = .ok ⟨17564⟩ := by decide
example : Amount.fromStr ['1', '7', '5', '.', '6'] = .ok ⟨17560⟩ := by decide
example : Amount.fromStr ['.', '6', '4', '6', '5'] = .ok ⟨65⟩ := by decide
example : Amount.fromStr ['0', '.', '0', '0', '4', '9'] = .ok ⟨0⟩ := by decide
example : Amount.fromStr ['0', '.', '0', '0', '5', '0'] = .ok ⟨1⟩ := by decide
example : Amount.fromStr ['1', '7', '5', '.'] = .err ['1', '7', '5', '.'] := by decide
example : Amount.fromStr ['1', '7', '5', '.', '8', '3', '7', '.', '9'] =
    .err ['1', '7', '5', '.', '8', '3', '7', '.', '9'] := by decide
example : Amount.fromStr ['1', '7', '5'] = .ok ⟨17500⟩ := by decide
example : Amount.fromStr [] = .err [] := by decide

example : Amount.format ⟨5600⟩ none none = ['5', '6'] := by decide
example : Amount.format ⟨5600⟩ (some 2) none = ['5', '6', '.', '0', '0'] := by decide
example : Amount.format ⟨5600⟩ (some 5) none = ['5', '6', '.', '0', '0', '0', '0', '0'] := by decide
example : Amount.format ⟨5600⟩ (some 1) (some 5) = ['0', '5', '6', '.', '0'] := by decide
example : Amount.format ⟨56⟩ (some 1) none = ['0', '.', '6'] := by decide
example : Amount.format ⟨150⟩ (some 0) none = ['2'] := by decide
example : Amount.format ⟨5600⟩ none (some 5) = ['0', '0', '0', '5', '6'] := by decide
example : Amount.format ⟨1565⟩ none none = ['1', '5', '.', '6', '5'] := by decide
example : Amount.format ⟨1560⟩ none none = ['1', '5', '.', '6'] := by decide

example : Amount.add ⟨165⟩ ⟨1000⟩ = ⟨1165⟩ := by decide
example : Amount.mul ⟨700⟩ 10 = ⟨7000⟩ := by decide
example : Amount.div ⟨7000⟩ 30 = some ⟨233⟩ := by decide
example : Amount.rem ⟨233⟩ 1 = some ⟨33⟩ := by decide
example : Amount.rem ⟨1234⟩ 10 = some ⟨234⟩ := by decide

/-!
## Lemmas: digit-string valuation
-/

theorem valAuxC_nil (acc : Nat) : valAuxC acc [] = acc := rfl

theorem valAuxC_cons (acc : Nat) (c : Char) (cs : List Char) :
    valAuxC acc (c :: cs) = valAuxC (acc * 10 + (c.toNat - 48)) cs := rfl

theorem valAuxC_append (x y : List Char) (acc : Nat) :
    valAuxC acc (x ++ y) = valAuxC (valAuxC acc x) y := by
  induction x generalizing acc with
  | nil => rfl
  | cons c cs ih =>
    show valAuxC (acc * 10 + (c.toNat - 48)) (cs ++ y)
        = valAuxC (valAuxC (acc * 10 + (c.toNat - 48)) cs) y
    exact ih _

theorem le_valAuxC (l : List Char) (acc : Nat) : acc ≤ valAuxC acc l := by
  induction l generalizing acc with
  | nil => exact Nat.le_refl acc
  | cons c cs ih =>
    show acc ≤ valAuxC (acc * 10 + (c.toNat - 48)) cs
    exact Nat.le_trans (by omega) (ih (acc * 10 + (c.toNat - 48)))

theorem charDigit_isSome_iff (c : Char) :
    (charDigit c).isSome ↔ 48 ≤ c.toNat ∧ c.toNat ≤ 57 := by
  unfold charDigit
  split
  · rename_i h
    simp [h]
  · rename_i h
    simp [h]

theorem valAuxC_lt (l : List Char) (hl : ∀ c ∈ l, (charDigit c).isSome) (acc : Nat) :
    valAuxC acc l < (acc + 1) * 10 ^ l.length := by
  induction l generalizing acc with
  | nil =>
    show acc < (acc + 1) * 10 ^ ([] : List Char).length
    simp
  | cons c cs ih =>
    have hc : c.toNat - 48 ≤ 9 := by
      have := (charDigit_isSome_iff c).mp (hl c (List.mem_cons_self c cs))
      omega
    have hcs : ∀ x ∈ cs, (charDigit x).isSome := fun x hx => hl x (List.mem_cons_of_mem c hx)
    show valAuxC (acc * 10 + (c.toNat - 48)) cs < (acc + 1) * 10 ^ (c :: cs).length
    calc valAuxC (acc * 10 + (c.toNat - 48)) cs
        < (acc * 10 + (c.toNat - 48) + 1) * 10 ^ cs.length := ih hcs _
      _ ≤ (acc + 1) * 10 * 10 ^ cs.length := Nat.mul_le_mul_right _ (by omega)
      _ = (acc + 1) * 10 ^ (cs.length + 1) := by ring

theorem valC_lt_pow (l : List Char) (hl : ∀ c ∈ l, (charDigit c).isSome) :
    valC l < 10 ^ l.length := by
  simpa [valC] using valAuxC_lt l hl 0

theorem digitChar_toNat (d : Nat) (hd : d < 10) : (digitChar d).toNat - 48 = d := by
  interval_cases d <;> rfl

theorem charDigit_digitChar (d : Nat) (hd : d < 10) : charDigit (digitChar d) = some d := by
  interval_cases d <;> rfl

theorem digitChar_isSome (d : Nat) (hd : d < 10) : (charDigit (digitChar d)).isSome := by
  rw [charDigit_digitChar d hd]; rfl

theorem isSome_ne_dot {c : Char} (h : (charDigit c).isSome) : c ≠ '.' := by
  rintro rfl; revert h; decide

theorem isSome_ne_plus {c : Char} (h : (charDigit c).isSome) : c ≠ '+' := by
  rintro rfl; revert h; decide

theorem valAuxC_digits (L : List Nat) (hL : ∀ d ∈ L, d < 10) (acc : Nat) :
    valAuxC acc (L.reverse.map digitChar) = acc * 10 ^ L.length + Nat.ofDigits 10 L := by
  induction L generalizing acc with
  | nil =>
    rw [List.reverse_nil, List.map_nil, valAuxC_nil, List.length_nil, Nat.ofDigits_nil,
      pow_zero, mul_one, Nat.add_zero]
  | cons d L ih =>
    have hd : d < 10 := hL d (List.mem_cons_self d L)
    have hL' : ∀ x ∈ L, x < 10 := fun x hx => hL x (List.mem_cons_of_mem d hx)
    rw [List.reverse_cons, List.map_append, valAuxC_append, ih hL', List.map_cons,
      List.map_nil, valAuxC_cons, valAuxC_nil, digitChar_toNat d hd, Nat.ofDigits_cons,
      List.length_cons]
    ring

/-!
## Lemmas: decimal rendering round-trips
-/

theorem natCharsAux_eq (fuel : Nat) : ∀ n acc, n ≤ fuel →
    natCharsAux fuel n acc = ((Nat.digits 10 n).reverse.map digitChar) ++ acc := by
  induction fuel with
  | zero =>
    intro n acc h
    interval_cases n
    simp [natCharsAux]
  | succ fuel ih =>
    intro n acc h
    match n with
    | 0 => simp [natCharsAux]
    | n + 1 =>
      have hdiv : (n + 1) / 10 ≤ fuel := by
        have := Nat.div_lt_self (Nat.succ_pos n) (by norm_num : 1 < 10)
        omega
      show natCharsAux fuel ((n + 1) / 10) (digitChar ((n + 1) % 10) :: acc)
          = ((Nat.digits 10 (n + 1)).reverse.map digitChar) ++ acc
      rw [ih ((n + 1) / 10) _ hdiv,
        Nat.digits_def' (by norm_num : (1 : ℕ) < 10) (Nat.succ_pos n)]
      simp [List.reverse_cons, List.map_append, List.append_assoc]

theorem natToString_eq (n : Nat) :
    natToString n = if n = 0 then ['0'] else (Nat.digits 10 n).reverse.map digitChar := by
  unfold natToString
  split
  · rfl
  · rw [natCharsAux_eq n n [] (Nat.le_refl n), List.append_nil]

theorem valC_natToString (n : Nat) : valC (natToString n) = n := by
  rcases eq_or_ne n 0 with h | h
  · subst h; decide
  ·
    rw [natToString_eq, if_neg h]
    have := valAuxC_digits (Nat.digits 10 n)
      (fun d hd => Nat.digits_lt_base (by norm_num) hd) 0
    simpa [valC, Nat.ofDigits_digits] using this

theorem natToString_digits (n : Nat) : ∀ c ∈ natToString n, (charDigit c).isSome := by
  rw [natToString_eq]
  split
  · intro c hc
    simp only [List.mem_singleton] at hc
    subst hc
    decide
  · intro c hc
    simp only [List.mem_map, List.mem_reverse] at hc
    obtain ⟨d, hd, rfl⟩ := hc
    exact digitChar_isSome d (Nat.digits_lt_base (by norm_num) hd)

theorem natToString_ne_nil (n : Nat) : natToString n ≠ [] := by
  intro h
  have h0 := valC_natToString n
  rw [h] at h0
  have hn : n = 0 := h0.symm.trans rfl
  subst hn
  rw [natToString_eq] at h
  simp at h

theorem natToString_no_dot (n : Nat) : ('.') ∉ natToString n := fun hmem =>
  isSome_ne_dot (natToString_digits n '.' hmem) rfl

/-!
## Lemmas: `splitDot`
-/

theorem splitDot_cons (c : Char) (cs : List Char) :
    splitDot (c :: cs) =
      match splitDot cs with
      | [] => []
      | h :: t => if c = '.' then [] :: h :: t else (c :: h) :: t := rfl

theorem splitDot_ne_nil (s : List Char) : splitDot s ≠ [] := by
  induction s with
  | nil => simp [splitDot]
  | cons c cs ih =>
    rw [splitDot_cons]
    cases h : splitDot cs with
    | nil => exact absurd h ih
    | cons a t => by_cases hc : c = '.' <;> simp [hc]

theorem splitDot_no_dot (s : List Char) (h : ('.') ∉ s) : splitDot s = [s] := by
  induction s with
  | nil => rfl
  | cons c cs ih =>
    have hc : ¬(c = '.') := fun hh => h (hh ▸ List.mem_cons_self c cs)
    have hcs : ('.') ∉ cs := fun hh => h (List.mem_cons_of_mem c hh)
    rw [splitDot_cons, ih hcs]
    simp [hc]

theorem splitDot_append (a b : List Char) (ha : ('.') ∉ a) :
    splitDot (a ++ '.' :: b) = a :: splitDot b := by
  induction a with
  | nil =>
    rw [List.nil_append, splitDot_cons]
    cases h : splitDot b with
    | nil => exact absurd h (splitDot_ne_nil b)
    | cons x t => simp
  | cons c cs ih =>
    have hc : ¬(c = '.') := fun hh => ha (hh ▸ List.mem_cons_self c cs)
    have hcs : ('.') ∉ cs := fun hh => ha (List.mem_cons_of_mem c hh)
    rw [List.cons_append, splitDot_cons, ih hcs]
    simp [hc]

/-!
## Lemmas: `parseU64` characterization
-/

theorem parseDigitsAux_nil (acc : Nat) : parseDigitsAux acc [] = some acc := rfl

theorem parseDigitsAux_cons (acc : Nat) (c : Char) (cs : List Char) :
    parseDigitsAux acc (c :: cs) =
      match charDigit c with
      | none => none
      | some d => if acc * 10 + d < 2 ^ 64 then parseDigitsAux (acc * 10 + d) cs else none := rfl

theorem parseDigitsAux_digits {l : List Char} {acc v : Nat}
    (h : parseDigitsAux acc l = some v) : ∀ c ∈ l, (charDigit c).isSome := by
  induction l generalizing acc with
  | nil => intro c hc; simp at hc
  | cons c cs ih =>
    intro x hx
    rw [parseDigitsAux_cons] at h
    cases hcd : charDigit c with
    | none => rw [hcd] at h; simp at h
    | some d =>
      rw [hcd] at h
      have h2 : (if acc * 10 + d < 2 ^ 64 then parseDigitsAux (acc * 10 + d) cs else none)
          = some v := h
      by_cases hov : acc * 10 + d < 2 ^ 64
      · rw [if_pos hov] at h2
        rcases List.mem_cons.mp hx with rfl | hx2
        · rw [hcd]; rfl
        · exact ih h2 x hx2
      · rw [if_neg hov] at h2
        simp at h2

theorem parseDigitsAux_eq {l : List Char} (hl : ∀ c ∈ l, (charDigit c).isSome) :
    ∀ acc, acc < 2 ^ 64 →
      parseDigitsAux acc l = if valAuxC acc l < 2 ^ 64 then some (valAuxC acc l) else none := by
  induction l with
  | nil =>
    intro acc hacc
    rw [parseDigitsAux_nil, valAuxC_nil, if_pos hacc]
  | cons c cs ih =>
    intro acc hacc
    have hc := hl c (List.mem_cons_self c cs)
    have hcs : ∀ x ∈ cs, (charDigit x).isSome := fun x hx => hl x (List.mem_cons_of_mem c hx)
    obtain ⟨d, hd⟩ := Option.isSome_iff_exists.mp hc
    have hdval : d = c.toNat - 48 := by
      unfold charDigit at hd
      split at hd
      · exact (Option.some_inj.mp hd).symm
      · simp at hd
    rw [parseDigitsAux_cons, hd, valAuxC_cons, ← hdval]
    show (if acc * 10 + d < 2 ^ 64 then parseDigitsAux (acc * 10 + d) cs else none)
        = if valAuxC (acc * 10 + d) cs < 2 ^ 64 then some (valAuxC (acc * 10 + d) cs) else none
    by_cases hov : acc * 10 + d < 2 ^ 64
    · rw [if_pos hov, ih hcs _ hov]
    · rw [if_neg hov]
      have h2 := le_valAuxC cs (acc * 10 + d)
      rw [if_neg (by omega)]

theorem parseU64_cons (c : Char) (cs : List Char) :
    parseU64 (c :: cs) =
      if c = '+' then (if cs = [] then none else parseDigitsAux 0 cs)
      else parseDigitsAux 0 (c :: cs) := rfl

theorem parseU64_eq {l : List Char} (hl : ∀ c ∈ l, (charDigit c).isSome) (hne : l ≠ []) :
    parseU64 l = if valC l < 2 ^ 64 then some (valC l) else none := by
  cases l with
  | nil => exact absurd rfl hne
  | cons c cs =>
    have hc := hl c (List.mem_cons_self c cs)
    rw [parseU64_cons, if_neg (isSome_ne_plus hc)]
    exact parseDigitsAux_eq hl 0 (by norm_num)

theorem parseU64_digits {l : List Char} {v : Nat} (h : parseU64 l = some v) :
    (∀ c ∈ l, (charDigit c).isSome) ∨
      ∃ t, l = '+' :: t ∧ ∀ c ∈ t, (charDigit c).isSome := by
  cases l with
  | nil => rw [show parseU64 [] = none from rfl] at h; simp at h
  | cons c cs =>
    rw [parseU64_cons] at h
    by_cases hc : c = '+'
    · subst hc
      rw [if_pos rfl] at h
      by_cases hcs : cs = []
      · rw [if_pos hcs] at h; simp at h
      · rw [if_neg hcs] at h
        exact Or.inr ⟨cs, rfl, parseDigitsAux_digits h⟩
    · rw [if_neg hc] at h
      exact Or.inl (parseDigitsAux_digits h)

theorem parseU64_natToString {n : Nat} (h : n < 2 ^ 64) : parseU64 (natToString n) = some n := by
  rw [parseU64_eq (natToString_digits n) (natToString_ne_nil n), valC_natToString, if_pos h]

/-!
## Lemmas: numeric constants
-/

theorem two_pow_64 : (2 : Nat) ^ 64 = 18446744073709551616 := by norm_num

theorem u64max_val : U64MAX = 18446744073709551615 := by norm_num [U64MAX]

theorem u64max_div_100 : U64MAX / 100 = 184467440737095516 := by
  rw [u64max_val]

/-!
## Lemmas: the branches of `Amount::from_str`
-/

theorem fromStr_no_dot {s : List Char} (h : ('.') ∉ s) :
    Amount.fromStr s =
      match parseU64 s with
      | none => .err s
      | some units => if units ≤ U64MAX / 100 then .ok ⟨units * 100⟩ else .err s := by
  unfold Amount.fromStr
  rw [if_neg h]

theorem fromStr_dotted {s us ds : List Char} (hdot : ('.') ∈ s)
    (hsplit : splitDot s = [us, ds]) :
    Amount.fromStr s =
      match unitsVal us with
      | none => .err s
      | some units =>
        match decimalsVal ds with
        | .err => .err s
        | .fault => .fault
        | .val decimals =>
          if U64MAX - decimals ≥ units then .ok ⟨units + decimals⟩ else .err s := by
  unfold Amount.fromStr
  rw [if_pos hdot, hsplit]

theorem fromStr_dotted_other {s : List Char} (hdot : ('.') ∈ s)
    (h : ∀ us ds, splitDot s ≠ [us, ds]) : Amount.fromStr s = .err s := by
  unfold Amount.fromStr
  rw [if_pos hdot]
  cases hs : splitDot s with
  | nil => rfl
  | cons us rest =>
    cases rest with
    | nil => rfl
    | cons ds rest2 =>
      cases rest2 with
      | nil => exact absurd hs (h us ds)
      | cons x t => rfl

/-!
## Lemmas: the units and decimals blocks
-/

theorem unitsVal_nil : unitsVal [] = some 0 := rfl

theorem unitsVal_eq {us : List Char} (hus : us ≠ []) :
    unitsVal us =
      match parseU64 us with
      | none => none
      | some u => if u ≤ U64MAX / 100 then some (u * 100) else none := by
  unfold unitsVal
  rw [if_neg hus]

theorem unitsVal_digits {us : List Char} (hd : ∀ c ∈ us, (charDigit c).isSome) :
    unitsVal us =
      if us = [] then some 0
      else if valC us ≤ U64MAX / 100 then some (valC us * 100) else none := by
  by_cases h : us = []
  · rw [h, if_pos rfl]
    rfl
  · rw [unitsVal_eq h, parseU64_eq hd h, if_neg h]
    by_cases hlt : valC us < 2 ^ 64
    · rw [if_pos hlt]
    · rw [if_neg hlt]
      rw [two_pow_64] at hlt
      rw [u64max_div_100]
      rw [if_neg (by omega)]

theorem padded_digits {ds : List Char} (hd : ∀ c ∈ ds, (charDigit c).isSome) :
    ∀ c ∈ padded ds, (charDigit c).isSome := by
  intro c hc
  unfold padded at hc
  split at hc
  · rcases List.mem_append.mp hc with h | h
    · exact hd c h
    · simp only [List.mem_singleton] at h
      subst h
      decide
  · exact hd c hc

theorem padded_ne_nil {ds : List Char} (hne : ds ≠ []) : padded ds ≠ [] := by
  unfold padded
  split
  · simp
  · exact hne

theorem padded_of_length_ne_one {ds : List Char} (h : ds.length ≠ 1) : padded ds = ds := by
  unfold padded
  rw [if_neg h]

theorem padded_length {ds : List Char} (hne : ds ≠ []) : 2 ≤ (padded ds).length := by
  unfold padded
  split
  · rename_i h
    rw [List.length_append, h, List.length_singleton]
  · rename_i h
    have : ds.length ≠ 0 := fun hh => hne (List.length_eq_zero.mp hh)
    omega

theorem decimalsVal_nil : decimalsVal [] = .err := rfl

theorem decimalsVal_eq {ds : List Char} (hne : ds ≠ []) :
    decimalsVal ds =
      match parseU64 (padded ds) with
      | none => .err
      | some d =>
        if (padded ds).length = 2 then .val d
        else if 10 ^ ((padded ds).length - 2) % 2 ^ 64 = 0 then .fault
        else .val (roundHalfUp d (10 ^ ((padded ds).length - 2) % 2 ^ 64)) := by
  unfold decimalsVal
  rw [if_neg hne]

theorem decimalsVal_spec {ds : List Char} (hne : ds ≠ [])
    (hd : ∀ c ∈ ds, (charDigit c).isSome)
    (hv : valC (padded ds) < 2 ^ 64) (hlen : (padded ds).length ≤ 21) :
    decimalsVal ds = .val (specDecimals ds) := by
  rw [decimalsVal_eq hne, parseU64_eq (padded_digits hd) (padded_ne_nil hne), if_pos hv]
  by_cases h2 : (padded ds).length = 2
  · show (if (padded ds).length = 2 then DecimalsResult.val (valC (padded ds))
      else if 10 ^ ((padded ds).length - 2) % 2 ^ 64 = 0 then .fault
      else .val (roundHalfUp (valC (padded ds)) (10 ^ ((padded ds).length - 2) % 2 ^ 64)))
        = .val (specDecimals ds)
    rw [if_pos h2]
    unfold specDecimals
    rw [if_pos h2]
  · show (if (padded ds).length = 2 then DecimalsResult.val (valC (padded ds))
      else if 10 ^ ((padded ds).length - 2) % 2 ^ 64 = 0 then .fault
      else .val (roundHalfUp (valC (padded ds)) (10 ^ ((padded ds).length - 2) % 2 ^ 64)))
        = .val (specDecimals ds)
    rw [if_neg h2]
    have hk : (padded ds).length - 2 ≤ 19 := by omega
    have hdiv : 10 ^ ((padded ds).length - 2) < 2 ^ 64 := by
      calc 10 ^ ((padded ds).length - 2) ≤ 10 ^ 19 := Nat.pow_le_pow_right (by norm_num) hk
        _ < 2 ^ 64 := by norm_num
    rw [Nat.mod_eq_of_lt hdiv,
      if_neg (pow_pos (by norm_num : (0 : ℕ) < 10) ((padded ds).length - 2)).ne']
    unfold specDecimals
    rw [if_neg h2]

theorem decimalsVal_overflow {ds : List Char} (hne : ds ≠ [])
    (hd : ∀ c ∈ ds, (charDigit c).isSome)
    (hv : ¬valC (padded ds) < 2 ^ 64) :
    decimalsVal ds = .err := by
  rw [decimalsVal_eq hne, parseU64_eq (padded_digits hd) (padded_ne_nil hne), if_neg hv]

theorem specDecimals_big {ds : List Char}
    (hv : valC (padded ds) < 2 ^ 64) (hlen : 22 ≤ (padded ds).length) :
    specDecimals ds = 0 := by
  unfold specDecimals
  rw [if_neg (by omega)]
  unfold roundHalfUp
  have hk : 20 ≤ (padded ds).length - 2 := by omega
  have hpow : 2 ^ 64 ≤ 10 ^ ((padded ds).length - 2) := by
    calc (2 : ℕ) ^ 64 ≤ 10 ^ 20 := by norm_num
      _ ≤ 10 ^ ((padded ds).length - 2) := Nat.pow_le_pow_right (by norm_num) hk
  have hhalf : 2 ^ 64 ≤ 10 ^ ((padded ds).length - 2) / 2 := by
    calc (2 : ℕ) ^ 64 ≤ 10 ^ 20 / 2 := by norm_num
      _ ≤ 10 ^ ((padded ds).length - 2) / 2 :=
          Nat.div_le_div_right (Nat.pow_le_pow_right (by norm_num) hk)
  rw [Nat.mod_eq_of_lt (by omega), if_neg (by omega), Nat.div_eq_of_lt (by omega)]

theorem specDecimals_lt (ds : List Char) (hd : ∀ c ∈ ds, (charDigit c).isSome)
    (hne : ds ≠ []) : specDecimals ds ≤ 100 := by
  have hdig := padded_digits hd
  have hval := valC_lt_pow (padded ds) hdig
  unfold specDecimals
  split
  · rename_i h2
    rw [h2] at hval
    omega
  · rename_i h2
    have hlen := padded_length hne
    unfold roundHalfUp
    have hdp : valC (padded ds) / 10 ^ ((padded ds).length - 2) < 100 := by
      rw [Nat.div_lt_iff_lt_mul (pow_pos (by norm_num : (0 : ℕ) < 10) _)]
      calc valC (padded ds) < 10 ^ (padded ds).length := hval
        _ = 100 * 10 ^ ((padded ds).length - 2) := by
            rw [show (100 : ℕ) = 10 ^ 2 from by norm_num, ← pow_add]
            congr 1
            omega
    split
    · omega
    · omega

/-!
## Claim theorems
-/

/-- Claim C1 (code-bug evidence): the `Add`/`Sub`/`Mul` implementations use
native machine arithmetic, so in release builds overflow and underflow wrap
silently modulo `2 ^ 64` (and panic in debug builds); no checked,
caller-visible numeric fault is signalled: `max + 1` yields `0`, `0 - 1`
yields the maximum, and `from_repr(2^63) * 2` yields `0`. -/
theorem amount_arith_wraps :
    Amount.add ⟨U64MAX⟩ ⟨1⟩ = ⟨0⟩ ∧
    Amount.sub ⟨0⟩ ⟨1⟩ = ⟨U64MAX⟩ ∧
    Amount.mul ⟨2 ^ 63⟩ 2 = ⟨0⟩ := by
  refine ⟨?_, ?_, ?_⟩ <;> decide

/-- Claim C10: with scalar argument 0, `div` performs `value / 0` and `rem`
computes `value % (0 * 100) = value % 0`; both are Rust division/remainder
by zero, which panics in every build configuration — there is no guarded
error result (`none` models the panic). -/
theorem amount_div_rem_zero (a : Amount) :
    Amount.div a 0 = none ∧ Amount.rem a 0 = none := by
  exact ⟨rfl, rfl⟩

/-- Claim C9: scalar multiplication is commutative — `n * a` (the
`Mul<Amount> for $t` implementation) equals `a * n` (the `Mul<$t> for Amount`
implementation) for every scalar — and when `a.value * n` does not overflow
both equal `from_repr(a.value * n)`. -/
theorem amount_mul_comm (a : Amount) (n : Nat) (_hn : n < 2 ^ 64) :
    Amount.mulScalar n a = Amount.mul a n ∧
      (a.value * n ≤ U64MAX → Amount.mul a n = Amount.from_repr (a.value * n)) := by
  constructor
  · unfold Amount.mulScalar Amount.mul
    rw [Nat.mul_comm]
  · intro h
    unfold Amount.mul Amount.from_repr
    have hlt : a.value * n < 2 ^ 64 := by
      rw [two_pow_64]
      rw [u64max_val] at h
      omega
    rw [Nat.mod_eq_of_lt hlt]

/-- Witness for C9 at `a = from_repr(165)`, `n = 3`. -/
theorem amount_mul_comm_witness :
    Amount.mulScalar 3 ⟨165⟩ = Amount.mul ⟨165⟩ 3 ∧
      Amount.mul ⟨165⟩ 3 = Amount.from_repr 495 := by
  have h := amount_mul_comm ⟨165⟩ 3 (by decide)
  exact ⟨h.1, (h.2 (by decide)).trans (by decide)⟩

/-- Claim C7 (counterexample): for the u64 scalar `n = 2^60` the modulus
`n * 100` wraps modulo `2^64` to `2^62`, so `from_repr(2^62) % n` yields `0`
although `2^62 % (2^60 * 100) = 2^62 ≠ 0`. -/
theorem amount_rem_wrap_cex :
    Amount.rem ⟨2 ^ 62⟩ (2 ^ 60) = some ⟨0⟩ ∧
    (2 ^ 62 : Nat) % (2 ^ 60 * 100) = 2 ^ 62 ∧ (2 ^ 62 : Nat) ≠ 0 := by
  refine ⟨?_, ?_, ?_⟩ <;> decide

/-- Claim C7 (amended): for every amount `a` and scalar `n` with `0 < n` and
`n * 100` representable in 64 bits (always the case for u8/u16/u32 scalars),
`(a % n).value = a.value % (n * 100)` — remainder with respect to whole-unit
buckets of `n`, not minor-unit buckets. -/
theorem amount_rem_buckets (a : Amount) (n : Nat) (hn : 0 < n)
    (hfit : n * 100 ≤ U64MAX) :
    Amount.rem a n = some ⟨a.value % (n * 100)⟩ := by
  unfold Amount.rem
  have hlt : n * 100 < 2 ^ 64 := by
    rw [two_pow_64]
    rw [u64max_val] at hfit
    omega
  rw [Nat.mod_eq_of_lt hlt, if_neg (Nat.mul_ne_zero hn.ne' (by norm_num))]

/-- Witness for C7 (amended), at the specification's own examples:
`from_repr(1234) % 10` and `from_repr(234) % 1`. -/
theorem amount_rem_buckets_witness :
    Amount.rem ⟨1234⟩ 10 = some ⟨1234 % (10 * 100)⟩ ∧
    Amount.rem ⟨234⟩ 1 = some ⟨234 % (1 * 100)⟩ :=
  ⟨amount_rem_buckets ⟨1234⟩ 10 (by decide) (by decide),
   amount_rem_buckets ⟨234⟩ 1 (by decide) (by decide)⟩

/-- Claim C5 (code-bug evidence): requested precision 1 prints the claim's
examples correctly, but for `a.value % 100 ≥ 95` the half-up-rounded tens
digit is `10` and the formatter prints the two-character fraction `"10"`
without carrying into the units: `format(from_repr(95), Some(1)) = "0.10"`,
not a single fractional digit. -/
theorem amount_format_prec1_no_carry :
    Amount.format ⟨5600⟩ (some 1) none = ['5', '6', '.', '0'] ∧
    Amount.format ⟨56⟩ (some 1) none = ['0', '.', '6'] ∧
    Amount.format ⟨95⟩ (some 1) none = ['0', '.', '1', '0'] := by
  refine ⟨?_, ?_, ?_⟩ <;> decide

/-- Claim C8: `min_value` is `from_repr(0)` and its default format is `"0"`;
`max_value` is `from_repr(2^64 - 1)`, its default format is
`"184467440737095516.15"`, and re-parsing that string reproduces
`max_value` exactly. -/
theorem amount_boundary_values :
    Amount.min_value = Amount.from_repr 0 ∧
    Amount.format Amount.min_value none none = ['0'] ∧
    Amount.max_value = Amount.from_repr (2 ^ 64 - 1) ∧
    Amount.format Amount.max_value none none =
      ['1', '8', '4', '4', '6', '7', '4', '4', '0', '7', '3', '7', '0', '9', '5', '5', '1',
        '6', '.', '1', '5'] ∧
    Amount.fromStr (Amount.format Amount.max_value none none) = .ok Amount.max_value := by
  refine ⟨?_, ?_, ?_, ?_, ?_⟩ <;> decide

/-!
## Lemmas: well-formed parts
-/

theorem dropPlus_eq_of_ne {c0 : Char} (cs : List Char) (h0 : c0 ≠ '+') :
    dropPlus (c0 :: cs) = c0 :: cs := by
  unfold dropPlus
  split
  · rename_i t heq
    injection heq with h1 h2
    exact absurd h1 h0
  · rfl

theorem dropPlus_subset (l : List Char) : ∀ c ∈ dropPlus l, c ∈ l := by
  intro c hc
  cases l with
  | nil => exact hc
  | cons c0 cs =>
    by_cases h0 : c0 = '+'
    · subst h0
      have hd : dropPlus ('+' :: cs) = cs := rfl
      rw [hd] at hc
      exact List.mem_cons_of_mem _ hc
    · rwa [dropPlus_eq_of_ne cs h0] at hc

theorem partWf_of_parseU64 {l : List Char} {v : Nat} (h : parseU64 l = some v) : partWf l := by
  rcases parseU64_digits h with hall | ⟨t, rfl, ht⟩
  · intro c hc
    exact hall c (dropPlus_subset l c hc)
  · intro c hc
    have hd : dropPlus ('+' :: t) = t := rfl
    rw [hd] at hc
    exact ht c hc

theorem partWf_of_padded {ds : List Char} (h : partWf (padded ds)) : partWf ds := by
  by_cases h1 : ds.length = 1
  · cases ds with
    | nil => simp at h1
    | cons c cs =>
      cases cs with
      | nil =>
        have hp : padded [c] = [c, '0'] := rfl
        rw [hp] at h
        by_cases hc : c = '+'
        · subst hc
          intro x hx
          have hd : dropPlus ['+'] = [] := rfl
          rw [hd] at hx
          simp at hx
        · intro x hx
          rw [dropPlus_eq_of_ne [] hc] at hx
          simp only [List.mem_singleton] at hx
          subst hx
          exact h x (by rw [dropPlus_eq_of_ne ['0'] hc]; exact List.mem_cons_self x ['0'])
      | cons c2 cs2 =>
        rw [List.length_cons, List.length_cons] at h1
        omega
  · rwa [padded_of_length_ne_one h1] at h

theorem decimalsVal_parse {ds : List Char} {r : DecimalsResult}
    (h : decimalsVal ds = r) (hr : r ≠ .err) : ∃ d, parseU64 (padded ds) = some d := by
  by_cases hne : ds = []
  · subst hne
    rw [decimalsVal_nil] at h
    exact absurd h.symm hr
  · rw [decimalsVal_eq hne] at h
    cases hp : parseU64 (padded ds) with
    | none =>
      rw [hp] at h
      exact absurd h.symm hr
    | some d => exact ⟨d, rfl⟩

/-- Claim C2 (amended): any input string in which some `'.'`-separated part
contains a character that is not a decimal digit — a single leading `'+'` of
a part excepted, since `u64::from_str` consumes it — parses to the error
carrying the original input string; it never produces an `Amount`. -/
theorem amount_parse_bad_char (s : List Char)
    (h : ¬∀ p ∈ splitDot s, partWf p) : Amount.fromStr s = .err s := by
  by_cases hdot : ('.') ∈ s
  case neg =>
    rw [splitDot_no_dot s hdot] at h
    rw [fromStr_no_dot hdot]
    cases hp : parseU64 s with
    | none => rfl
    | some u =>
      exfalso
      apply h
      intro p hp2
      simp only [List.mem_singleton] at hp2
      subst hp2
      exact partWf_of_parseU64 hp
  case pos =>
    cases hsp : splitDot s with
    | nil => exact absurd hsp (splitDot_ne_nil s)
    | cons us rest =>
      cases rest with
      | nil =>
        exact fromStr_dotted_other hdot (fun a b hh => by rw [hsp] at hh; simp at hh)
      | cons ds rest2 =>
        cases rest2 with
        | cons x t =>
          exact fromStr_dotted_other hdot (fun a b hh => by rw [hsp] at hh; simp at hh)
        | nil =>
          rw [fromStr_dotted hdot hsp]
          rw [hsp] at h
          cases hu : unitsVal us with
          | none => rfl
          | some units =>
            have hwus : partWf us := by
              by_cases hus : us = []
              · subst hus
                intro c hc
                exact absurd hc (List.not_mem_nil c)
              · rw [unitsVal_eq hus] at hu
                cases hpu : parseU64 us with
                | none => rw [hpu] at hu; simp at hu
                | some u => exact partWf_of_parseU64 hpu
            cases hd : decimalsVal ds with
            | err => rfl
            | fault =>
              exfalso
              apply h
              obtain ⟨d, hpd⟩ := decimalsVal_parse hd (by simp)
              have hwds : partWf ds := partWf_of_padded (partWf_of_parseU64 hpd)
              intro p hp2
              rcases List.mem_cons.mp hp2 with rfl | hp3
              · exact hwus
              · rcases List.mem_cons.mp hp3 with rfl | hp4
                · exact hwds
                · exact absurd hp4 (List.not_mem_nil p)
            | val decimals =>
              exfalso
              apply h
              obtain ⟨d, hpd⟩ := decimalsVal_parse hd (by simp)
              have hwds : partWf ds := partWf_of_padded (partWf_of_parseU64 hpd)
              intro p hp2
              rcases List.mem_cons.mp hp2 with rfl | hp3
              · exact hwus
              · rcases List.mem_cons.mp hp3 with rfl | hp4
                · exact hwds
                · exact absurd hp4 (List.not_mem_nil p)

/-- Witness for C2 (amended) at the input `"12a"`. -/
theorem amount_parse_bad_char_witness :
    Amount.fromStr ['1', '2', 'a'] = .err ['1', '2', 'a'] :=
  amount_parse_bad_char ['1', '2', 'a'] (by decide)

/-- Claim C2 (counterexample): `"+5.00"` contains a character (`'+'`) that is
neither a decimal digit nor the separator, yet it parses successfully to
`from_repr(500)`, because `u64::from_str` accepts one leading `'+'`. -/
theorem amount_parse_plus_ok :
    Amount.fromStr ['+', '5', '.', '0', '0'] = .ok ⟨500⟩ := by decide

/-!
## Lemmas: evaluating the parser on rendered strings
-/

theorem format_default (a : Amount) :
    Amount.format a none none =
      if a.value % 100 = 0 then natToString (a.value / 100)
      else if a.value % 100 % 10 = 0 then
        natToString (a.value / 100) ++ '.' :: natToString (a.value % 100 / 10)
      else natToString (a.value / 100) ++ '.' :: natToString2 (a.value % 100) := rfl

theorem unitsVal_natToString {n : Nat} (h : n ≤ U64MAX / 100) :
    unitsVal (natToString n) = some (n * 100) := by
  have hlt : n < 2 ^ 64 := by
    rw [u64max_div_100] at h
    rw [two_pow_64]
    omega
  rw [unitsVal_eq (natToString_ne_nil n), parseU64_natToString hlt]
  show (if n ≤ U64MAX / 100 then some (n * 100) else none) = some (n * 100)
  rw [if_pos h]

theorem natToString_single {n : Nat} (h0 : 0 < n) (h10 : n < 10) :
    natToString n = [digitChar n] := by
  rw [natToString_eq, if_neg (by omega), Nat.digits_def' (by norm_num : (1 : ℕ) < 10) h0,
    Nat.mod_eq_of_lt h10, Nat.div_eq_of_lt h10, Nat.digits_zero]
  rfl

theorem decimalsVal_single_digit {n : Nat} (h0 : 0 < n) (h10 : n < 10) :
    decimalsVal (natToString n) = .val (n * 10) := by
  rw [natToString_single h0 h10]
  have hne : ([digitChar n] : List Char) ≠ [] := by simp
  rw [decimalsVal_eq hne]
  have hpad : padded [digitChar n] = [digitChar n, '0'] := rfl
  rw [hpad]
  have hdig : ∀ c ∈ [digitChar n, '0'], (charDigit c).isSome := by
    intro c hc
    rcases List.mem_cons.mp hc with rfl | hc2
    · exact digitChar_isSome n h10
    · simp only [List.mem_singleton] at hc2
      subst hc2
      decide
  have hval : valC [digitChar n, '0'] = n * 10 := by
    show valAuxC 0 [digitChar n, '0'] = n * 10
    rw [valAuxC_cons, valAuxC_cons, valAuxC_nil, digitChar_toNat n h10]
    have h48 : ('0' : Char).toNat - 48 = 0 := rfl
    rw [h48]
    omega
  rw [parseU64_eq hdig (by simp), hval, if_pos (by rw [two_pow_64]; omega)]
  rfl

theorem natToString2_eq {n : Nat} (h : n < 100) :
    natToString2 n = [digitChar (n / 10), digitChar (n % 10)] := by
  unfold natToString2
  by_cases h10 : n < 10
  · rw [if_pos h10]
    rcases Nat.eq_zero_or_pos n with rfl | hpos
    · rfl
    · rw [natToString_single hpos h10, Nat.div_eq_of_lt h10, Nat.mod_eq_of_lt h10]
      rfl
  · rw [if_neg h10, natToString_eq, if_neg (by omega),
      Nat.digits_def' (by norm_num : (1 : ℕ) < 10) (by omega : 0 < n),
      Nat.digits_def' (by norm_num : (1 : ℕ) < 10) (Nat.div_pos (by omega) (by norm_num)),
      Nat.mod_eq_of_lt (show n / 10 < 10 by omega),
      Nat.div_eq_of_lt (show n / 10 < 10 by omega), Nat.digits_zero]
    rfl

theorem decimalsVal_two_digit {n : Nat} (h : n < 100) :
    decimalsVal (natToString2 n) = .val n := by
  rw [natToString2_eq h]
  have hne : ([digitChar (n / 10), digitChar (n % 10)] : List Char) ≠ [] := by simp
  rw [decimalsVal_eq hne]
  have hpad : padded [digitChar (n / 10), digitChar (n % 10)]
      = [digitChar (n / 10), digitChar (n % 10)] :=
    padded_of_length_ne_one (by simp)
  rw [hpad]
  have hdig : ∀ c ∈ [digitChar (n / 10), digitChar (n % 10)], (charDigit c).isSome := by
    intro c hc
    rcases List.mem_cons.mp hc with rfl | hc2
    · exact digitChar_isSome _ (by omega)
    · simp only [List.mem_singleton] at hc2
      subst hc2
      exact digitChar_isSome _ (by omega)
  have hval : valC [digitChar (n / 10), digitChar (n % 10)] = n := by
    show valAuxC 0 [digitChar (n / 10), digitChar (n % 10)] = n
    rw [valAuxC_cons, valAuxC_cons, valAuxC_nil, digitChar_toNat _ (by omega),
      digitChar_toNat _ (by omega)]
    omega
  rw [parseU64_eq hdig (by simp), hval, if_pos (by rw [two_pow_64]; omega)]
  rfl

/-- Claim C3: for every `Amount` in the `u64` domain, parsing the
default-formatted string (no requested precision, no minimum width) yields
exactly the same amount again; the default format path never rounds. -/
theorem amount_format_parse_roundtrip (a : Amount) (h : a.value < 2 ^ 64) :
    Amount.fromStr (Amount.format a none none) = .ok a := by
  have hu : a.value / 100 ≤ U64MAX / 100 := by
    rw [u64max_div_100]
    rw [two_pow_64] at h
    omega
  rw [format_default]
  by_cases hdr : a.value % 100 = 0
  · rw [if_pos hdr]
    have hnd := natToString_no_dot (a.value / 100)
    have hlt : a.value / 100 < 2 ^ 64 := by
      rw [two_pow_64] at h ⊢
      omega
    rw [fromStr_no_dot hnd, parseU64_natToString hlt]
    show (if a.value / 100 ≤ U64MAX / 100 then ParseResult.ok ⟨a.value / 100 * 100⟩
        else .err (natToString (a.value / 100))) = .ok a
    rw [if_pos hu, Nat.div_mul_cancel (Nat.dvd_of_mod_eq_zero hdr)]
  · rw [if_neg hdr]
    by_cases h10 : a.value % 100 % 10 = 0
    · rw [if_pos h10]
      have hnd_us := natToString_no_dot (a.value / 100)
      have hnd_ds := natToString_no_dot (a.value % 100 / 10)
      have hdot : ('.') ∈ natToString (a.value / 100) ++ '.' :: natToString (a.value % 100 / 10) :=
        List.mem_append.mpr (Or.inr (List.mem_cons_self _ _))
      have hsp := splitDot_append _ (natToString (a.value % 100 / 10)) hnd_us
      rw [splitDot_no_dot _ hnd_ds] at hsp
      rw [fromStr_dotted hdot hsp, unitsVal_natToString hu,
        decimalsVal_single_digit (by omega) (by omega)]
      have he : a.value % 100 / 10 * 10 = a.value % 100 := by omega
      rw [he]
      have hcond : U64MAX - a.value % 100 ≥ a.value / 100 * 100 := by
        rw [u64max_val]
        rw [two_pow_64] at h
        omega
      show (if U64MAX - a.value % 100 ≥ a.value / 100 * 100
          then ParseResult.ok ⟨a.value / 100 * 100 + a.value % 100⟩
          else .err (natToString (a.value / 100) ++ '.' :: natToString (a.value % 100 / 10)))
        = .ok a
      have hdm : a.value / 100 * 100 + a.value % 100 = a.value := by omega
      rw [if_pos hcond, hdm]
    · rw [if_neg h10]
      have hnd_us := natToString_no_dot (a.value / 100)
      have hnd_ds : ('.') ∉ natToString2 (a.value % 100) := by
        rw [natToString2_eq (show a.value % 100 < 100 by omega)]
        intro hmem
        rcases List.mem_cons.mp hmem with hh | hh
        · exact isSome_ne_dot (digitChar_isSome _ (by omega)) hh.symm
        · simp only [List.mem_singleton] at hh
          exact isSome_ne_dot (digitChar_isSome _ (by omega)) hh.symm
      have hdot : ('.') ∈ natToString (a.value / 100) ++ '.' :: natToString2 (a.value % 100) :=
        List.mem_append.mpr (Or.inr (List.mem_cons_self _ _))
      have hsp := splitDot_append _ (natToString2 (a.value % 100)) hnd_us
      rw [splitDot_no_dot _ hnd_ds] at hsp
      rw [fromStr_dotted hdot hsp, unitsVal_natToString hu,
        decimalsVal_two_digit (show a.value % 100 < 100 by omega)]
      have hcond : U64MAX - a.value % 100 ≥ a.value / 100 * 100 := by
        rw [u64max_val]
        rw [two_pow_64] at h
        omega
      show (if U64MAX - a.value % 100 ≥ a.value / 100 * 100
          then ParseResult.ok ⟨a.value / 100 * 100 + a.value % 100⟩
          else .err (natToString (a.value / 100) ++ '.' :: natToString2 (a.value % 100)))
        = .ok a
      have hdm : a.value / 100 * 100 + a.value % 100 = a.value := by omega
      rw [if_pos hcond, hdm]

/-- Witness for C3 at `a = from_repr(1565)` (formats as `"15.65"`). -/
theorem amount_format_parse_roundtrip_witness :
    Amount.fromStr (Amount.format ⟨1565⟩ none none) = .ok ⟨1565⟩ :=
  amount_format_parse_roundtrip ⟨1565⟩ (by decide)

/-- Claim C4 (amended): for a dotted input `us.ds` of decimal digits whose
fractional part `ds` has length `len` with `2 < len ≤ 21`, parsing yields
`units * 100 + roundHalfUp d (10^(len-2))` where `d` is the integer denoted
by `ds` — round half-up to two fractional digits with the exact divisor.
(For `len ≥ 22` the divisor computation `10_u64.pow(len - 2)` wraps in
release builds — see the counterexample — so the bound is required.) -/
theorem amount_parse_round_half_up (us ds : List Char)
    (hus : ∀ c ∈ us, (charDigit c).isSome)
    (hds : ∀ c ∈ ds, (charDigit c).isSome)
    (hlen1 : 2 < ds.length) (hlen2 : ds.length ≤ 21)
    (hu : valC us ≤ U64MAX / 100)
    (hd : valC ds < 2 ^ 64)
    (hsum : valC us * 100 + roundHalfUp (valC ds) (10 ^ (ds.length - 2)) ≤ U64MAX) :
    Amount.fromStr (us ++ '.' :: ds) =
      .ok ⟨valC us * 100 + roundHalfUp (valC ds) (10 ^ (ds.length - 2))⟩ := by
  have hnd_us : ('.') ∉ us := fun hmem => isSome_ne_dot (hus '.' hmem) rfl
  have hnd_ds : ('.') ∉ ds := fun hmem => isSome_ne_dot (hds '.' hmem) rfl
  have hdot : ('.') ∈ us ++ '.' :: ds :=
    List.mem_append.mpr (Or.inr (List.mem_cons_self _ _))
  have hsp := splitDot_append us ds hnd_us
  rw [splitDot_no_dot ds hnd_ds] at hsp
  rw [fromStr_dotted hdot hsp]
  have huv : unitsVal us = some (valC us * 100) := by
    rw [unitsVal_digits hus]
    by_cases h0 : us = []
    · rw [if_pos h0, h0]
      rfl
    · rw [if_neg h0, if_pos hu]
  rw [huv]
  have hpad : padded ds = ds := padded_of_length_ne_one (by omega)
  have hdv : decimalsVal ds = .val (roundHalfUp (valC ds) (10 ^ (ds.length - 2))) := by
    have hspec := @decimalsVal_spec ds (by intro hh; rw [hh] at hlen1; simp at hlen1)
      hds (by rwa [hpad]) (by rw [hpad]; omega)
    rw [hspec]
    unfold specDecimals
    rw [hpad, if_neg (by omega)]
  rw [hdv]
  have hcond : U64MAX - roundHalfUp (valC ds) (10 ^ (ds.length - 2)) ≥ valC us * 100 := by
    omega
  show (if U64MAX - roundHalfUp (valC ds) (10 ^ (ds.length - 2)) ≥ valC us * 100
      then ParseResult.ok ⟨valC us * 100 + roundHalfUp (valC ds) (10 ^ (ds.length - 2))⟩
      else .err (us ++ '.' :: ds))
    = .ok ⟨valC us * 100 + roundHalfUp (valC ds) (10 ^ (ds.length - 2))⟩
  rw [if_pos hcond]

/-- Witness for C4 (amended) at the specification's example `"175.665"`,
which parses to 17567 minor units. -/
theorem amount_parse_round_half_up_witness :
    Amount.fromStr ['1', '7', '5', '.', '6', '6', '5'] = .ok ⟨17567⟩ := by
  have h := amount_parse_round_half_up ['1', '7', '5'] ['6', '6', '5'] (by decide) (by decide)
    (by decide) (by decide) (by decide) (by decide) (by decide)
  exact h.trans (by decide)

/-- Claim C4 (counterexample): the input `".0010000000000000000000"` has a
fractional digit string of length 22 denoting `d = 10^19`; the claim's
formula with `divisor = 10^(22-2)` rounds down to 0 (`roundHalfUp d 10^20 = 0`),
but the code computes the divisor with wrapping 64-bit exponentiation
(`10^20 mod 2^64 = 7766279631452241920`) and parses the string to 1 minor
unit. -/
theorem amount_parse_round_wrap_cex :
    Amount.fromStr ['.', '0', '0', '1', '0', '0', '0', '0', '0', '0', '0', '0', '0', '0',
      '0', '0', '0', '0', '0', '0', '0', '0', '0'] = .ok ⟨1⟩ ∧
    roundHalfUp (valC ['0', '0', '1', '0', '0', '0', '0', '0', '0', '0', '0', '0', '0',
      '0', '0', '0', '0', '0', '0', '0', '0', '0']) (10 ^ 20) = 0 ∧
    (1 : Nat) ≠ 0 := by
  refine ⟨?_, ?_, ?_⟩ <;> decide

/-- Claim C6: a decimal digit string whose integer part exceeds
`u64::MAX / 100`, or whose scaled units plus (mathematically) rounded
decimals exceed `u64::MAX`, fails to parse with the error carrying the
original string — never a clamped, saturated or wrapped `Amount`. -/
theorem amount_parse_overflow_rejected (us ds : List Char)
    (hus : ∀ c ∈ us, (charDigit c).isSome)
    (hds : ∀ c ∈ ds, (charDigit c).isSome) :
    (us ≠ [] → valC us > U64MAX / 100 → Amount.fromStr us = .err us) ∧
    (ds ≠ [] →
      (valC us > U64MAX / 100 ∨ valC us * 100 + specDecimals ds > U64MAX) →
      Amount.fromStr (us ++ '.' :: ds) = .err (us ++ '.' :: ds)) := by
  constructor
  · intro hne hbig
    have hnd : ('.') ∉ us := fun hmem => isSome_ne_dot (hus '.' hmem) rfl
    rw [fromStr_no_dot hnd, parseU64_eq hus hne]
    by_cases hlt : valC us < 2 ^ 64
    · rw [if_pos hlt]
      show (if valC us ≤ U64MAX / 100 then ParseResult.ok ⟨valC us * 100⟩ else .err us) = .err us
      rw [if_neg (by omega)]
    · rw [if_neg hlt]
  · intro hne hbig
    have hnd_us : ('.') ∉ us := fun hmem => isSome_ne_dot (hus '.' hmem) rfl
    have hnd_ds : ('.') ∉ ds := fun hmem => isSome_ne_dot (hds '.' hmem) rfl
    have hdot : ('.') ∈ us ++ '.' :: ds :=
      List.mem_append.mpr (Or.inr (List.mem_cons_self _ _))
    have hsp := splitDot_append us ds hnd_us
    rw [splitDot_no_dot ds hnd_ds] at hsp
    rw [fromStr_dotted hdot hsp, unitsVal_digits hus]
    by_cases h0 : us = []
    · exfalso
      have hsd := specDecimals_lt ds hds hne
      have hv0 : valC us = 0 := by rw [h0]; rfl
      rcases hbig with hb | hb
      · rw [hv0, u64max_div_100] at hb
        omega
      · rw [hv0, u64max_val] at hb
        omega
    · rw [if_neg h0]
      by_cases hval : valC us ≤ U64MAX / 100
      · rw [if_pos hval]
        have hsum : valC us * 100 + specDecimals ds > U64MAX := by
          rcases hbig with hb | hb
          · omega
          · exact hb
        show (match decimalsVal ds with
          | .err => ParseResult.err (us ++ '.' :: ds)
          | .fault => .fault
          | .val decimals =>
            if U64MAX - decimals ≥ valC us * 100 then .ok ⟨valC us * 100 + decimals⟩
            else .err (us ++ '.' :: ds)) = .err (us ++ '.' :: ds)
        by_cases hdlt : valC (padded ds) < 2 ^ 64
        · by_cases hdlen : (padded ds).length ≤ 21
          · rw [decimalsVal_spec hne hds hdlt hdlen]
            have hsd := specDecimals_lt ds hds hne
            show (if U64MAX - specDecimals ds ≥ valC us * 100
                then ParseResult.ok ⟨valC us * 100 + specDecimals ds⟩
                else .err (us ++ '.' :: ds)) = .err (us ++ '.' :: ds)
            rw [if_neg (by rw [u64max_val] at hsum ⊢; omega)]
          · exfalso
            have hzero := specDecimals_big hdlt (by omega)
            rw [hzero] at hsum
            rw [u64max_div_100] at hval
            rw [u64max_val] at hsum
            omega
        · rw [decimalsVal_overflow hne hds hdlt]
      · rw [if_neg hval]

/-- Witness for C6: the 18-digit integer part `200000000000000000` exceeds
`u64::MAX / 100` and fails to parse both bare and in `"200000000000000000.99"`. -/
theorem amount_parse_overflow_rejected_witness :
    Amount.fromStr ['2', '0', '0', '0', '0', '0', '0', '0', '0', '0', '0', '0', '0', '0',
      '0', '0', '0', '0'] =
      .err ['2', '0', '0', '0', '0', '0', '0', '0', '0', '0', '0', '0', '0', '0',
        '0', '0', '0', '0'] ∧
    Amount.fromStr (['1', '8', '4', '4', '6', '7', '4', '4', '0', '7', '3', '7', '0', '9',
      '5', '5', '1', '6'] ++ '.' :: ['9', '9']) =
      .err (['1', '8', '4', '4', '6', '7', '4', '4', '0', '7', '3', '7', '0', '9',
        '5', '5', '1', '6'] ++ '.' :: ['9', '9']) :=
  ⟨(amount_parse_overflow_rejected
      ['2', '0', '0', '0', '0', '0', '0', '0', '0', '0', '0', '0', '0', '0', '0', '0', '0', '0']
      ['9'] (by decide) (by decide)).1 (by decide) (by decide),
   (amount_parse_overflow_rejected
      ['1', '8', '4', '4', '6', '7', '4', '4', '0', '7', '3', '7', '0', '9', '5', '5', '1', '6']
      ['9', '9'] (by decide) (by decide)).2 (by decide) (by decide)⟩

/-- Witness for C10 at `a = from_repr(700)`. -/
theorem amount_div_rem_zero_witness :
    Amount.div ⟨700⟩ 0 = none ∧ Amount.rem ⟨700⟩ 0 = none :=
  amount_div_rem_zero ⟨700⟩
